import Mathlib

/-!
Verification of the optiland surface-geometry core against its specification.

Shallow embedding of the Python sources:
  * `optiland/rays/paraxial_rays.py`  — `ParaxialRays` (state-passing model of
    the in-place mutation, arrays as `List ℝ`);
  * `optiland/geometries/standard.py` — `StandardGeometry` (`sag`,
    `surface_normal` over `ℝ`; `distance` over an IEEE-style value type `F`
    whose finite values carry exact reals, so that the `+inf` / `NaN`
    sentinel behaviour of the numpy code is captured);
  * `optiland/geometries/even_asphere.py` — `EvenAsphere`;
  * `optiland/geometries/chebyshev.py` — `ChebyshevPolynomialGeometry`
    (domain check modelled with `Except`, matching the batch-level
    `ValueError`).

numpy array operations in the sources are elementwise, so batched functions
are modelled as `List.map` of a per-ray function.  Finite float arithmetic is
modelled at infinite precision (rounding is out of scope); the special values
`inf`, `-inf`, `nan` produced by masking, by `sqrt` of a negative number and
by division by zero are modelled explicitly by `F`.
-/

/- ================= ParaxialRays (optiland/rays/paraxial_rays.py) ========= -/

/-- Ray state of `ParaxialRays`: fields `x y z u i w` are the parallel numeric
arrays held by the Python object (`w` is the wavelength array, `i` the
validity flag array). In-place mutation is modelled by returning the updated
state. -/
structure ParaxialRays where
  x : List ℝ
  y : List ℝ
  z : List ℝ
  u : List ℝ
  i : List ℝ
  w : List ℝ

/-- Modelled from the spec: `BaseRays._process_input` (class `BaseRays` in
`optiland/rays/base.py`, which is not under `src/`) converts constructor input
to equal-length numeric arrays ("all equal-length numeric arrays (or scalars
broadcastable to arrays)", spec section 6).  We model the array case as the
identity on the input array. -/
def processInput (a : List ℝ) : List ℝ := a

/-- `ParaxialRays.__init__`: `y`, `z`, `u`, `w` from `_process_input`;
`x = np.zeros_like(y)`; `i = np.ones_like(y)`. -/
def ParaxialRays.init (y u z wavelength : List ℝ) : ParaxialRays :=
  { y := processInput y
    z := processInput z
    u := processInput u
    x := (processInput y).map (fun _ => 0)
    i := (processInput y).map (fun _ => 1)
    w := processInput wavelength }

/-- `ParaxialRays.propagate(t)`: `z += t`; `y += t * u` (elementwise). -/
def ParaxialRays.propagate (r : ParaxialRays) (t : ℝ) : ParaxialRays :=
  { r with
    z := r.z.map (fun zi => zi + t)
    y := List.zipWith (fun yi ui => yi + t * ui) r.y r.u }

/- ================= StandardGeometry (optiland/geometries/standard.py) ==== -/

/-- `StandardGeometry` configuration: radius and conic constant `k`.  The
`coordinate_system` argument of the Python constructor is stored but never
used by `sag`, `distance` or `surface_normal`, so it is omitted. -/
structure StandardGeometry where
  radius : ℝ
  k : ℝ

/-- `StandardGeometry.sag`: `r2 / (radius * (1 + sqrt(1 - (1+k) r2 / radius^2)))`. -/
noncomputable def StandardGeometry.sag (g : StandardGeometry) (x y : ℝ) : ℝ :=
  (x ^ 2 + y ^ 2) /
    (g.radius * (1 + Real.sqrt (1 - (1 + g.k) * (x ^ 2 + y ^ 2) / g.radius ^ 2)))

/-- The denominator `-radius * sqrt(1 - (1+k) r2 / radius^2)` of
`StandardGeometry.surface_normal`. -/
noncomputable def StandardGeometry.denom (g : StandardGeometry) (x y : ℝ) : ℝ :=
  -g.radius * Real.sqrt (1 - (1 + g.k) * (x ^ 2 + y ^ 2) / g.radius ^ 2)

/-- `mag = sqrt(dfdx^2 + dfdy^2 + dfdz^2)` of `StandardGeometry.surface_normal`,
with `dfdx = x / denom`, `dfdy = y / denom`, `dfdz = 1`. -/
noncomputable def StandardGeometry.mag (g : StandardGeometry) (x y : ℝ) : ℝ :=
  Real.sqrt ((x / g.denom x y) ^ 2 + (y / g.denom x y) ^ 2 + 1)

/-- `StandardGeometry.surface_normal`: `(dfdx/mag, dfdy/mag, 1/mag)` (note the
source sets `dfdz = 1`, so the z-component is `+1/mag`). -/
noncomputable def StandardGeometry.surface_normal (g : StandardGeometry) (x y : ℝ) :
    ℝ × ℝ × ℝ :=
  (x / g.denom x y / g.mag x y, y / g.denom x y / g.mag x y, 1 / g.mag x y)

/- ================= EvenAsphere (optiland/geometries/even_asphere.py) ===== -/

/-- `EvenAsphere` configuration: radius, conic `k`, aspheric coefficient list
`c`.  `tol` and `max_iter` are forwarded to the Newton-Raphson base class and
play no role in `sag` / `_surface_normal`, so they are omitted. -/
structure EvenAsphere where
  radius : ℝ
  k : ℝ
  c : List ℝ

/-- The loop `for i, Ci in enumerate(c): z += Ci * r2 ** (i + 1)` of
`EvenAsphere.sag`, with explicit running index `i`. -/
def eaSagSum (r2 : ℝ) : List ℝ → ℕ → ℝ
  | [], _ => 0
  | Ci :: rest, i => Ci * r2 ^ (i + 1) + eaSagSum r2 rest (i + 1)

/-- The loop `for i, Ci in enumerate(c): dfdx += 2*(i+1)*x*Ci*r2**i` of
`EvenAsphere._surface_normal` (the `dfdy` loop is the same with `y` for `x`). -/
def eaDerivSum (x r2 : ℝ) : List ℝ → ℕ → ℝ
  | [], _ => 0
  | Ci :: rest, i => 2 * ((i : ℝ) + 1) * x * Ci * r2 ^ i + eaDerivSum x r2 rest (i + 1)

/-- `EvenAsphere.sag`: conic term plus the even-power polynomial. -/
noncomputable def EvenAsphere.sag (g : EvenAsphere) (x y : ℝ) : ℝ :=
  (x ^ 2 + y ^ 2) /
      (g.radius * (1 + Real.sqrt (1 - (1 + g.k) * (x ^ 2 + y ^ 2) / g.radius ^ 2)))
    + eaSagSum (x ^ 2 + y ^ 2) g.c 0

/-- The denominator `radius * sqrt(1 - (1+k) r2 / radius^2)` of
`EvenAsphere._surface_normal` (sign opposite to `StandardGeometry.denom`). -/
noncomputable def EvenAsphere.denom (g : EvenAsphere) (x y : ℝ) : ℝ :=
  g.radius * Real.sqrt (1 - (1 + g.k) * (x ^ 2 + y ^ 2) / g.radius ^ 2)

/-- `dfdx` of `EvenAsphere._surface_normal`. -/
noncomputable def EvenAsphere.dfdx (g : EvenAsphere) (x y : ℝ) : ℝ :=
  x / g.denom x y + eaDerivSum x (x ^ 2 + y ^ 2) g.c 0

/-- `dfdy` of `EvenAsphere._surface_normal`. -/
noncomputable def EvenAsphere.dfdy (g : EvenAsphere) (x y : ℝ) : ℝ :=
  y / g.denom x y + eaDerivSum y (x ^ 2 + y ^ 2) g.c 0

/-- `mag = sqrt(dfdx^2 + dfdy^2 + 1)` of `EvenAsphere._surface_normal`. -/
noncomputable def EvenAsphere.mag (g : EvenAsphere) (x y : ℝ) : ℝ :=
  Real.sqrt (g.dfdx x y ^ 2 + g.dfdy x y ^ 2 + 1)

/-- `EvenAsphere._surface_normal`: `(dfdx/mag, dfdy/mag, -1/mag)` (the source
name starts with an underscore; Lean spelling `surfaceNormal`). -/
noncomputable def EvenAsphere.surfaceNormal (g : EvenAsphere) (x y : ℝ) :
    ℝ × ℝ × ℝ :=
  (g.dfdx x y / g.mag x y, g.dfdy x y / g.mag x y, -1 / g.mag x y)

/- ====== ChebyshevPolynomialGeometry (optiland/geometries/chebyshev.py) === -/

/-- `ChebyshevPolynomialGeometry` configuration.  The 2D coefficient array
`np.atleast_2d(coefficients)` of shape `rows × cols` is modelled as a function
`c : ℕ → ℕ → ℝ` read inside those bounds.  `tol` and `max_iter` are omitted as
for `EvenAsphere`. -/
structure ChebyshevPolynomialGeometry where
  radius : ℝ
  k : ℝ
  rows : ℕ
  cols : ℕ
  c : ℕ → ℕ → ℝ
  norm_x : ℝ
  norm_y : ℝ

/-- `_chebyshev(n, x) = cos(n * arccos(x))`. -/
noncomputable def chebT (n : ℕ) (u : ℝ) : ℝ := Real.cos (n * Real.arccos u)

/-- `_chebyshev_derivative(n, x) = n * sin(n * arccos(x)) / sqrt(1 - x^2)`. -/
noncomputable def chebTd (n : ℕ) (u : ℝ) : ℝ :=
  n * Real.sin (n * Real.arccos u) / Real.sqrt (1 - u ^ 2)

/-- The accumulation loop `for i, j in np.argwhere(c != 0): acc += c[i,j] * f(i,j)`
shared by `sag`, `dzdx` and `dzdy`.  The source iterates only the non-zero
entries of `c`; over `ℝ` a zero entry contributes exactly `0 * f i j = 0`, so
the sum over the whole `rows × cols` index range is extensionally the same
value, and is what we define. -/
noncomputable def ChebyshevPolynomialGeometry.combine
    (g : ChebyshevPolynomialGeometry) (f : ℕ → ℕ → ℝ) : ℝ :=
  ∑ i in Finset.range g.rows, ∑ j in Finset.range g.cols, g.c i j * f i j

/-- The value computed by `ChebyshevPolynomialGeometry.sag` once the domain
check has passed: conic term plus `sum c[i,j] * T_i(x/norm_x) * T_j(y/norm_y)`. -/
noncomputable def ChebyshevPolynomialGeometry.sagVal
    (g : ChebyshevPolynomialGeometry) (x y : ℝ) : ℝ :=
  (x ^ 2 + y ^ 2) /
      (g.radius * (1 + Real.sqrt (1 - (1 + g.k) * (x ^ 2 + y ^ 2) / g.radius ^ 2)))
    + g.combine (fun i j => chebT i (x / g.norm_x) * chebT j (y / g.norm_y))

/-- The denominator `radius * sqrt(1 - (1+k) r2 / radius^2)` of
`ChebyshevPolynomialGeometry._surface_normal`. -/
noncomputable def ChebyshevPolynomialGeometry.denom
    (g : ChebyshevPolynomialGeometry) (x y : ℝ) : ℝ :=
  g.radius * Real.sqrt (1 - (1 + g.k) * (x ^ 2 + y ^ 2) / g.radius ^ 2)

/-- `dzdx` of `ChebyshevPolynomialGeometry._surface_normal`:
`x / denom + sum Td_i(x/norm_x) * c[i,j] * T_j(y/norm_y)` (the source writes
the factors in that order; multiplication is commutative). -/
noncomputable def ChebyshevPolynomialGeometry.dzdx
    (g : ChebyshevPolynomialGeometry) (x y : ℝ) : ℝ :=
  x / g.denom x y
    + g.combine (fun i j => chebTd i (x / g.norm_x) * chebT j (y / g.norm_y))

/-- `dzdy` of `ChebyshevPolynomialGeometry._surface_normal`. -/
noncomputable def ChebyshevPolynomialGeometry.dzdy
    (g : ChebyshevPolynomialGeometry) (x y : ℝ) : ℝ :=
  y / g.denom x y
    + g.combine (fun i j => chebTd j (y / g.norm_y) * chebT i (x / g.norm_x))

/-- `norm = sqrt(dzdx^2 + dzdy^2 + 1)` of
`ChebyshevPolynomialGeometry._surface_normal`. -/
noncomputable def ChebyshevPolynomialGeometry.mag
    (g : ChebyshevPolynomialGeometry) (x y : ℝ) : ℝ :=
  Real.sqrt (g.dzdx x y ^ 2 + g.dzdy x y ^ 2 + 1)

/-- The value computed by `ChebyshevPolynomialGeometry._surface_normal` once
the domain check has passed: `(-dzdx/norm, -dzdy/norm, 1/norm)`. -/
noncomputable def ChebyshevPolynomialGeometry.surfaceNormal
    (g : ChebyshevPolynomialGeometry) (x y : ℝ) : ℝ × ℝ × ℝ :=
  (-g.dzdx x y / g.mag x y, -g.dzdy x y / g.mag x y, 1 / g.mag x y)

/-- The domain condition tested by both `sag` and `_surface_normal`:
`np.any(np.abs(x_norm) > 1) or np.any(np.abs(y_norm) > 1)` over the batch. -/
def ChebyshevPolynomialGeometry.domainViolated
    (g : ChebyshevPolynomialGeometry) (pts : List (ℝ × ℝ)) : Prop :=
  ∃ p ∈ pts, 1 < |p.1 / g.norm_x| ∨ 1 < |p.2 / g.norm_y|

open Classical in
/-- `ChebyshevPolynomialGeometry.sag` on a batch of points: raise `ValueError`
(modelled as `Except.error ()`) when the domain check fails, otherwise return
every per-point sag value. -/
noncomputable def ChebyshevPolynomialGeometry.sagBatch
    (g : ChebyshevPolynomialGeometry) (pts : List (ℝ × ℝ)) :
    Except Unit (List ℝ) :=
  if g.domainViolated pts then Except.error ()
  else Except.ok (pts.map fun p => g.sagVal p.1 p.2)

open Classical in
/-- `ChebyshevPolynomialGeometry._surface_normal` on a batch of points, with
the same domain check as `sag`. -/
noncomputable def ChebyshevPolynomialGeometry.surfaceNormalBatch
    (g : ChebyshevPolynomialGeometry) (pts : List (ℝ × ℝ)) :
    Except Unit (List (ℝ × ℝ × ℝ)) :=
  if g.domainViolated pts then Except.error ()
  else Except.ok (pts.map fun p => g.surfaceNormal p.1 p.2)

/-- Zero-padded read of the coefficient array: the entry at `(i, j)`, taking
positions outside the array shape as `0`. -/
def ChebyshevPolynomialGeometry.entry
    (g : ChebyshevPolynomialGeometry) (i j : ℕ) : ℝ :=
  if i < g.rows ∧ j < g.cols then g.c i j else 0

/- ================= IEEE-style values for StandardGeometry.distance ======= -/

/-- Model of an IEEE double at real precision: a finite value carrying an
exact real, positive and negative infinity, and NaN.  Rounding of finite
arithmetic is out of scope; the special values are what
`StandardGeometry.distance` uses as sentinels. -/
inductive F where
  | fin (v : ℝ)
  | inf
  | ninf
  | nan

/-- IEEE addition (finite part exact). -/
noncomputable def F.add : F → F → F
  | .fin a, .fin b => .fin (a + b)
  | .fin _, .inf => .inf
  | .inf, .fin _ => .inf
  | .inf, .inf => .inf
  | .fin _, .ninf => .ninf
  | .ninf, .fin _ => .ninf
  | .ninf, .ninf => .ninf
  | .inf, .ninf => .nan
  | .ninf, .inf => .nan
  | .nan, _ => .nan
  | _, .nan => .nan

/-- IEEE negation. -/
noncomputable def F.neg : F → F
  | .fin a => .fin (-a)
  | .inf => .ninf
  | .ninf => .inf
  | .nan => .nan

/-- IEEE subtraction. -/
noncomputable def F.sub (a b : F) : F := F.add a (F.neg b)

open Classical in
/-- IEEE multiplication (`0 * inf = nan`; signed zero is not modelled, a
finite zero behaves as `+0`). -/
noncomputable def F.mul : F → F → F
  | .fin a, .fin b => .fin (a * b)
  | .fin a, .inf => if 0 < a then .inf else if a < 0 then .ninf else .nan
  | .fin a, .ninf => if 0 < a then .ninf else if a < 0 then .inf else .nan
  | .inf, .fin b => if 0 < b then .inf else if b < 0 then .ninf else .nan
  | .ninf, .fin b => if 0 < b then .ninf else if b < 0 then .inf else .nan
  | .inf, .inf => .inf
  | .inf, .ninf => .ninf
  | .ninf, .inf => .ninf
  | .ninf, .ninf => .inf
  | .nan, _ => .nan
  | _, .nan => .nan

open Classical in
/-- IEEE division (`x/0` with `x ≠ 0` gives a signed infinity since the zero
is `+0`; `0/0` and `inf/inf` give NaN). -/
noncomputable def F.div : F → F → F
  | .fin a, .fin b =>
      if b = 0 then (if a = 0 then .nan else if 0 < a then .inf else .ninf)
      else .fin (a / b)
  | .fin _, .inf => .fin 0
  | .fin _, .ninf => .fin 0
  | .inf, .fin b => if 0 ≤ b then .inf else .ninf
  | .ninf, .fin b => if 0 ≤ b then .ninf else .inf
  | .inf, .inf => .nan
  | .inf, .ninf => .nan
  | .ninf, .inf => .nan
  | .ninf, .ninf => .nan
  | .nan, _ => .nan
  | _, .nan => .nan

open Classical in
/-- `np.sqrt`: NaN on negative inputs (the source silences the warning). -/
noncomputable def F.sqrtF : F → F
  | .fin a => if 0 ≤ a then .fin (Real.sqrt a) else .nan
  | .inf => .inf
  | .ninf => .nan
  | .nan => .nan

/-- `np.abs`. -/
noncomputable def F.absF : F → F
  | .fin a => .fin |a|
  | .inf => .inf
  | .ninf => .inf
  | .nan => .nan

/-- IEEE `<`: any comparison involving NaN is false. -/
def F.lt : F → F → Prop
  | .fin a, .fin b => a < b
  | .fin _, .inf => True
  | .ninf, .fin _ => True
  | .ninf, .inf => True
  | _, _ => False

/-- IEEE `<=`: any comparison involving NaN is false. -/
def F.le : F → F → Prop
  | .fin a, .fin b => a ≤ b
  | .fin _, .inf => True
  | .inf, .inf => True
  | .ninf, .fin _ => True
  | .ninf, .inf => True
  | .ninf, .ninf => True
  | _, _ => False

/- ============== StandardGeometry.distance (standard.py, lines 46-87) ===== -/

/-- A single 3D ray of the batch consumed by `StandardGeometry.distance`:
position `(x, y, z)` and direction cosines `(L, M, N)`.  The wavelength field
is not read by `distance` and is omitted. -/
structure Ray where
  x : ℝ
  y : ℝ
  z : ℝ
  L : ℝ
  M : ℝ
  N : ℝ

/-- Quadratic coefficient `a = k*N^2 + L^2 + M^2 + N^2`. -/
def aOf (g : StandardGeometry) (r : Ray) : ℝ :=
  g.k * r.N ^ 2 + r.L ^ 2 + r.M ^ 2 + r.N ^ 2

/-- Quadratic coefficient
`b = 2kNz + 2Lx + 2My - 2NR + 2Nz`. -/
def bOf (g : StandardGeometry) (r : Ray) : ℝ :=
  2 * g.k * r.N * r.z + 2 * r.L * r.x + 2 * r.M * r.y
    - 2 * r.N * g.radius + 2 * r.N * r.z

/-- Quadratic coefficient `c = k z^2 - 2Rz + x^2 + y^2 + z^2`. -/
def cOf (g : StandardGeometry) (r : Ray) : ℝ :=
  g.k * r.z ^ 2 - 2 * g.radius * r.z + r.x ^ 2 + r.y ^ 2 + r.z ^ 2

/-- Discriminant `d = b^2 - 4ac` (computed on finite floats, hence real). -/
def dOf (g : StandardGeometry) (r : Ray) : ℝ :=
  bOf g r ^ 2 - 4 * aOf g r * cOf g r

/-- Root `t1 = (-b + np.sqrt(d)) / (2a)` in float semantics. -/
noncomputable def t1Of (g : StandardGeometry) (r : Ray) : F :=
  F.div (F.add (F.fin (-bOf g r)) (F.sqrtF (F.fin (dOf g r)))) (F.fin (2 * aOf g r))

/-- Root `t2 = (-b - np.sqrt(d)) / (2a)` in float semantics. -/
noncomputable def t2Of (g : StandardGeometry) (r : Ray) : F :=
  F.div (F.sub (F.fin (-bOf g r)) (F.sqrtF (F.fin (dOf g r)))) (F.fin (2 * aOf g r))

/-- The real value of root `t1` when `a ≠ 0` and `d ≥ 0`. -/
noncomputable def t1R (g : StandardGeometry) (r : Ray) : ℝ :=
  (-bOf g r + Real.sqrt (dOf g r)) / (2 * aOf g r)

/-- The real value of root `t2` when `a ≠ 0` and `d ≥ 0`. -/
noncomputable def t2R (g : StandardGeometry) (r : Ray) : ℝ :=
  (-bOf g r - Real.sqrt (dOf g r)) / (2 * aOf g r)

open Classical in
/-- The mask `t[t < 0] = np.inf` applied to one entry (NaN entries are kept:
`nan < 0` is false). -/
noncomputable def tmask (t : F) : F := if F.lt t (F.fin 0) then F.inf else t

/-- Intersection z-coordinate `z + t * N` in float semantics. -/
noncomputable def zOf (r : Ray) (t : F) : F :=
  F.add (F.fin r.z) (F.mul t (F.fin r.N))

open Classical in
/-- The selection `t = np.where(np.abs(z1) <= np.abs(z2), t1, t2)` applied to
one ray, after both roots have been masked. -/
noncomputable def selOf (g : StandardGeometry) (r : Ray) : F :=
  if F.le (F.absF (zOf r (tmask (t1Of g r)))) (F.absF (zOf r (tmask (t2Of g r))))
  then tmask (t1Of g r) else tmask (t2Of g r)

/-- The linear branch `t[a == 0] = -c[a == 0] / b[a == 0]`. -/
noncomputable def linOf (g : StandardGeometry) (r : Ray) : F :=
  F.div (F.fin (-cOf g r)) (F.fin (bOf g r))

open Classical in
/-- `StandardGeometry.distance` restricted to one ray.  The source computes
`t1`, `t2`, masks negatives to `inf`, selects by `|z1| <= |z2|`, and finally
overwrites the entries with `a == 0` by `-c/b`; per ray that is the same as
branching on `a == 0` first (the overwritten quadratic value is discarded). -/
noncomputable def distOne (g : StandardGeometry) (r : Ray) : F :=
  if aOf g r = 0 then linOf g r else selOf g r

/-- `StandardGeometry.distance` over a ray batch: every numpy operation in the
source acts elementwise, so the batch result is the per-ray result mapped over
the batch. -/
noncomputable def StandardGeometry.distance (g : StandardGeometry)
    (rays : List Ray) : List F :=
  rays.map (distOne g)

/- ================= Theorems: ParaxialRays ================================ -/

lemma map_const_eq_replicate (l : List ℝ) (v : ℝ) :
    l.map (fun _ => v) = List.replicate l.length v := by
  induction l with
  | nil => rfl
  | cons a l ih => simp [ih, List.replicate_succ]

/-- C8: for every `ParaxialRays` state and distance `t`, `propagate t` updates
`z` to `z + t` and `y` to `y + t*u` elementwise, and leaves `x`, `u`, the
wavelength array `w` and the validity flags `i` unchanged. -/
theorem C8_theorem (r : ParaxialRays) (t : ℝ) :
    (r.propagate t).z = r.z.map (fun zi => zi + t) ∧
    (r.propagate t).y = List.zipWith (fun yi ui => yi + t * ui) r.y r.u ∧
    (r.propagate t).x = r.x ∧
    (r.propagate t).u = r.u ∧
    (r.propagate t).w = r.w ∧
    (r.propagate t).i = r.i :=
  ⟨rfl, rfl, rfl, rfl, rfl, rfl⟩

/-- C10: after construction the `x` array is all zeros and the flag array `i`
is all ones, both of the same length as `y`; `propagate` never writes `x` or
`i`, so the invariant is preserved. -/
theorem C10_theorem (y u z wavelength : List ℝ) (t : ℝ) :
    (ParaxialRays.init y u z wavelength).x = List.replicate y.length 0 ∧
    (ParaxialRays.init y u z wavelength).i = List.replicate y.length 1 ∧
    (ParaxialRays.init y u z wavelength).x.length = y.length ∧
    (ParaxialRays.init y u z wavelength).i.length = y.length ∧
    ((ParaxialRays.init y u z wavelength).propagate t).x = List.replicate y.length 0 ∧
    ((ParaxialRays.init y u z wavelength).propagate t).i = List.replicate y.length 1 := by
  refine ⟨?_, ?_, ?_, ?_, ?_, ?_⟩ <;>
    simp [ParaxialRays.init, ParaxialRays.propagate, processInput,
      map_const_eq_replicate]

/- ================= Theorems: normals (C5, C6) =========================== -/

lemma sqrt_sq_add_one_pos (p q : ℝ) : 0 < Real.sqrt (p ^ 2 + q ^ 2 + 1) :=
  Real.sqrt_pos.mpr (by positivity)

lemma unit_normal_aux (p q e : ℝ) (he : e ^ 2 = 1) :
    (p / Real.sqrt (p ^ 2 + q ^ 2 + 1)) ^ 2 + (q / Real.sqrt (p ^ 2 + q ^ 2 + 1)) ^ 2
      + (e / Real.sqrt (p ^ 2 + q ^ 2 + 1)) ^ 2 = 1 := by
  have hs : (0 : ℝ) < p ^ 2 + q ^ 2 + 1 := by positivity
  have hne : Real.sqrt (p ^ 2 + q ^ 2 + 1) ≠ 0 := (sqrt_sq_add_one_pos p q).ne'
  have hsq : Real.sqrt (p ^ 2 + q ^ 2 + 1) ^ 2 = p ^ 2 + q ^ 2 + 1 :=
    Real.sq_sqrt hs.le
  rw [div_pow, div_pow, div_pow, hsq, he, div_add_div_same, div_add_div_same]
  exact div_self hs.ne'

/-- C5: for every surface variant and every input point, the returned surface
normal has unit magnitude: `nx^2 + ny^2 + nz^2 = 1` (each variant divides its
gradient by `mag = sqrt(dfdx^2 + dfdy^2 + 1)`). -/
theorem C5_theorem (gs : StandardGeometry) (ge : EvenAsphere)
    (gc : ChebyshevPolynomialGeometry) (x y : ℝ) :
    ((gs.surface_normal x y).1) ^ 2 + ((gs.surface_normal x y).2.1) ^ 2
        + ((gs.surface_normal x y).2.2) ^ 2 = 1 ∧
    ((ge.surfaceNormal x y).1) ^ 2 + ((ge.surfaceNormal x y).2.1) ^ 2
        + ((ge.surfaceNormal x y).2.2) ^ 2 = 1 ∧
    ((gc.surfaceNormal x y).1) ^ 2 + ((gc.surfaceNormal x y).2.1) ^ 2
        + ((gc.surfaceNormal x y).2.2) ^ 2 = 1 := by
  refine ⟨?_, ?_, ?_⟩
  · simpa [StandardGeometry.surface_normal, StandardGeometry.mag] using
      unit_normal_aux (x / gs.denom x y) (y / gs.denom x y) 1 (one_pow 2)
  · simpa [EvenAsphere.surfaceNormal, EvenAsphere.mag] using
      unit_normal_aux (ge.dfdx x y) (ge.dfdy x y) (-1) (by norm_num)
  · have h := unit_normal_aux (-(gc.dzdx x y)) (-(gc.dzdy x y)) 1 (one_pow 2)
    rw [neg_sq, neg_sq] at h
    simpa [ChebyshevPolynomialGeometry.surfaceNormal,
      ChebyshevPolynomialGeometry.mag] using h

/-- C6 (amended): the z-component of the normal is `nz = +1/mag` (positive)
for `StandardGeometry` and for `ChebyshevPolynomialGeometry`, while
`EvenAsphere` returns `nz = -1/mag` (negative): it is Standard and Chebyshev
that share one sign convention and EvenAsphere that uses the opposite one. -/
theorem C6_theorem (gs : StandardGeometry) (ge : EvenAsphere)
    (gc : ChebyshevPolynomialGeometry) (x y : ℝ) :
    (gs.surface_normal x y).2.2 = 1 / gs.mag x y ∧
    0 < (gs.surface_normal x y).2.2 ∧
    (ge.surfaceNormal x y).2.2 = -1 / ge.mag x y ∧
    (ge.surfaceNormal x y).2.2 < 0 ∧
    (gc.surfaceNormal x y).2.2 = 1 / gc.mag x y ∧
    0 < (gc.surfaceNormal x y).2.2 := by
  refine ⟨rfl, ?_, rfl, ?_, rfl, ?_⟩
  · exact div_pos one_pos (sqrt_sq_add_one_pos _ _)
  · exact div_neg_of_neg_of_pos (by norm_num) (sqrt_sq_add_one_pos _ _)
  · exact div_pos one_pos (sqrt_sq_add_one_pos _ _)

/-- C6 counterexample: at the in-domain point `(0, 0)` of the sphere with
radius `1`, `StandardGeometry.surface_normal` returns `nz = 1`, which is not
negative — the claim that Standard shares the `nz = -1/mag` convention with
EvenAsphere is false. -/
theorem C6_counterexample :
    ((StandardGeometry.mk 1 0).surface_normal 0 0).2.2 = 1 ∧
    ¬ (((StandardGeometry.mk 1 0).surface_normal 0 0).2.2 < 0) := by
  have h : ((StandardGeometry.mk 1 0).surface_normal 0 0).2.2 = 1 := by
    norm_num [StandardGeometry.surface_normal, StandardGeometry.mag,
      StandardGeometry.denom, Real.sqrt_one]
  exact ⟨h, by rw [h]; norm_num⟩

/- ================= Theorems: Chebyshev domain check (C4) ================ -/

/-- C4: the batched Chebyshev `sag` and `_surface_normal` raise the domain
error exactly when some input point has `|x/norm_x| > 1` or `|y/norm_y| > 1`
(so boundary points with `|u| = 1` are accepted), and when no violation occurs
they return the full per-point result lists. -/
theorem C4_theorem (g : ChebyshevPolynomialGeometry) (pts : List (ℝ × ℝ)) :
    (g.sagBatch pts = Except.error () ↔ g.domainViolated pts) ∧
    (g.surfaceNormalBatch pts = Except.error () ↔ g.domainViolated pts) ∧
    (g.domainViolated pts ↔ ∃ p ∈ pts, 1 < |p.1 / g.norm_x| ∨ 1 < |p.2 / g.norm_y|) ∧
    (¬ g.domainViolated pts →
      g.sagBatch pts = Except.ok (pts.map fun p => g.sagVal p.1 p.2) ∧
      g.surfaceNormalBatch pts
        = Except.ok (pts.map fun p => g.surfaceNormal p.1 p.2)) := by
  classical
  refine ⟨?_, ?_, Iff.rfl, ?_⟩ <;>
  · by_cases h : g.domainViolated pts <;>
      simp [ChebyshevPolynomialGeometry.sagBatch,
        ChebyshevPolynomialGeometry.surfaceNormalBatch, h]

/-- C4 witness: with `norm_x = norm_y = 1` the boundary point `(1, 1)` is
accepted and the batch call returns per-point results. -/
theorem C4_witness :
    ¬ (ChebyshevPolynomialGeometry.mk 1 0 1 1 (fun _ _ => 0) 1 1).domainViolated
        [(1, 1)] ∧
    ((ChebyshevPolynomialGeometry.mk 1 0 1 1 (fun _ _ => 0) 1 1).sagBatch [(1, 1)]
        = Except.ok ([(1, 1)].map fun p =>
            (ChebyshevPolynomialGeometry.mk 1 0 1 1 (fun _ _ => 0) 1 1).sagVal p.1 p.2) ∧
      (ChebyshevPolynomialGeometry.mk 1 0 1 1 (fun _ _ => 0) 1 1).surfaceNormalBatch
          [(1, 1)]
        = Except.ok ([(1, 1)].map fun p =>
            (ChebyshevPolynomialGeometry.mk 1 0 1 1 (fun _ _ => 0) 1 1).surfaceNormal
              p.1 p.2)) := by
  have hnv : ¬ (ChebyshevPolynomialGeometry.mk 1 0 1 1 (fun _ _ => 0) 1 1).domainViolated
      [(1, 1)] := by
    simp [ChebyshevPolynomialGeometry.domainViolated]
  exact ⟨hnv, (C4_theorem _ _).2.2.2 hnv⟩

/- ========== Theorems: Chebyshev coefficient support (C9) ================= -/

lemma combine_eq_entry_sum (g : ChebyshevPolynomialGeometry) (f : ℕ → ℕ → ℝ)
    (N M : ℕ) (hN : g.rows ≤ N) (hM : g.cols ≤ M) :
    g.combine f = ∑ i in Finset.range N, ∑ j in Finset.range M,
      g.entry i j * f i j := by
  unfold ChebyshevPolynomialGeometry.combine
  have step1 : ∀ i, i < g.rows →
      (∑ j in Finset.range g.cols, g.c i j * f i j)
        = ∑ j in Finset.range M, g.entry i j * f i j := by
    intro i hi
    have e1 : (∑ j in Finset.range g.cols, g.c i j * f i j)
        = ∑ j in Finset.range g.cols, g.entry i j * f i j :=
      Finset.sum_congr rfl fun j hj => by
        rw [ChebyshevPolynomialGeometry.entry,
          if_pos ⟨hi, Finset.mem_range.mp hj⟩]
    have e2 : (∑ j in Finset.range g.cols, g.entry i j * f i j)
        = ∑ j in Finset.range M, g.entry i j * f i j :=
      Finset.sum_subset (Finset.range_subset.mpr hM) fun j _ hj => by
        rw [ChebyshevPolynomialGeometry.entry,
          if_neg (fun hcon => hj (Finset.mem_range.mpr hcon.2)), zero_mul]
    rw [e1, e2]
  have e3 : (∑ i in Finset.range g.rows, ∑ j in Finset.range g.cols,
        g.c i j * f i j)
      = ∑ i in Finset.range g.rows, ∑ j in Finset.range M,
        g.entry i j * f i j :=
    Finset.sum_congr rfl fun i hi => step1 i (Finset.mem_range.mp hi)
  have e4 : (∑ i in Finset.range g.rows, ∑ j in Finset.range M,
        g.entry i j * f i j)
      = ∑ i in Finset.range N, ∑ j in Finset.range M,
        g.entry i j * f i j :=
    Finset.sum_subset (Finset.range_subset.mpr hN) fun i _ hi =>
      Finset.sum_eq_zero fun j _ => by
        rw [ChebyshevPolynomialGeometry.entry,
          if_neg (fun hcon => hi (Finset.mem_range.mpr hcon.1)), zero_mul]
  rw [e3, e4]

lemma combine_congr_of_entry_eq (g h : ChebyshevPolynomialGeometry)
    (hent : ∀ i j, g.entry i j = h.entry i j) (f : ℕ → ℕ → ℝ) :
    g.combine f = h.combine f := by
  rw [combine_eq_entry_sum g f (max g.rows h.rows) (max g.cols h.cols)
      (le_max_left _ _) (le_max_left _ _),
    combine_eq_entry_sum h f (max g.rows h.rows) (max g.cols h.cols)
      (le_max_right _ _) (le_max_right _ _)]
  exact Finset.sum_congr rfl fun i _ => Finset.sum_congr rfl fun j _ => by
    rw [hent i j]

/-- C9: the Chebyshev sag and surface normal depend only on the zero-padded
coefficient entries: two geometries with the same radius, conic and
normalization whose coefficient arrays agree after zero padding (for example
one padded with extra zero rows or columns) give identical sag values and
identical surface normals at every point. -/
theorem C9_theorem (R k nx ny : ℝ) (r1 c1 r2 c2 : ℕ) (A B : ℕ → ℕ → ℝ)
    (x y : ℝ)
    (hent : ∀ i j, (ChebyshevPolynomialGeometry.mk R k r1 c1 A nx ny).entry i j
        = (ChebyshevPolynomialGeometry.mk R k r2 c2 B nx ny).entry i j) :
    (ChebyshevPolynomialGeometry.mk R k r1 c1 A nx ny).sagVal x y
      = (ChebyshevPolynomialGeometry.mk R k r2 c2 B nx ny).sagVal x y ∧
    (ChebyshevPolynomialGeometry.mk R k r1 c1 A nx ny).surfaceNormal x y
      = (ChebyshevPolynomialGeometry.mk R k r2 c2 B nx ny).surfaceNormal x y := by
  have hcomb := combine_congr_of_entry_eq _ _ hent
  constructor
  · simp only [ChebyshevPolynomialGeometry.sagVal, hcomb]
  · simp only [ChebyshevPolynomialGeometry.surfaceNormal,
      ChebyshevPolynomialGeometry.mag, ChebyshevPolynomialGeometry.dzdx,
      ChebyshevPolynomialGeometry.dzdy, ChebyshevPolynomialGeometry.denom,
      hcomb]

/-- C9 witness: a `1 × 1` zero coefficient array and its `2 × 2` zero padding
give the same sag and the same normal at `(0, 0)`. -/
theorem C9_witness :
    (ChebyshevPolynomialGeometry.mk 1 0 1 1 (fun _ _ => 0) 1 1).sagVal 0 0
      = (ChebyshevPolynomialGeometry.mk 1 0 2 2 (fun _ _ => 0) 1 1).sagVal 0 0 ∧
    (ChebyshevPolynomialGeometry.mk 1 0 1 1 (fun _ _ => 0) 1 1).surfaceNormal 0 0
      = (ChebyshevPolynomialGeometry.mk 1 0 2 2 (fun _ _ => 0) 1 1).surfaceNormal
          0 0 :=
  C9_theorem 1 0 1 1 1 1 2 2 (fun _ _ => 0) (fun _ _ => 0) 0 0
    (fun i j => by simp [ChebyshevPolynomialGeometry.entry])

/- ======= Theorems: zero-coefficient reduction to the conic (C1) ========== -/

lemma eaSagSum_zero (r2 : ℝ) (c : List ℝ) (hc : ∀ a ∈ c, a = 0) :
    ∀ i, eaSagSum r2 c i = 0 := by
  induction c with
  | nil => intro i; rfl
  | cons Ci rest ih =>
      intro i
      rw [eaSagSum, hc Ci (List.mem_cons_self Ci rest),
        ih (fun a ha => hc a (List.mem_cons_of_mem _ ha)) (i + 1)]
      ring

lemma eaDerivSum_zero (x r2 : ℝ) (c : List ℝ) (hc : ∀ a ∈ c, a = 0) :
    ∀ i, eaDerivSum x r2 c i = 0 := by
  induction c with
  | nil => intro i; rfl
  | cons Ci rest ih =>
      intro i
      rw [eaDerivSum, hc Ci (List.mem_cons_self Ci rest),
        ih (fun a ha => hc a (List.mem_cons_of_mem _ ha)) (i + 1)]
      ring

lemma combine_zero (g : ChebyshevPolynomialGeometry) (hz : ∀ i j, g.c i j = 0) :
    ∀ f, g.combine f = 0 := fun f =>
  Finset.sum_eq_zero fun i _ => Finset.sum_eq_zero fun j _ => by
    rw [hz i j, zero_mul]

/-- C1 (amended): with an empty or all-zero coefficient list (EvenAsphere) and
an all-zero coefficient array (Chebyshev, with the point inside the
normalization domain), all three sag values coincide with the
`StandardGeometry` sag, and the Chebyshev surface normal equals the
`StandardGeometry` surface normal exactly; the EvenAsphere surface normal,
however, is the componentwise negation of the `StandardGeometry` one (its
`dfdx`, `dfdy` and `nz` all carry the opposite sign). -/
theorem C1_theorem (R k : ℝ) (c : List ℝ) (rows cols : ℕ) (cc : ℕ → ℕ → ℝ)
    (nx ny : ℝ) (x y : ℝ)
    (hc : ∀ a ∈ c, a = 0)
    (hzero : ∀ i j, cc i j = 0)
    (_hdomx : |x / nx| ≤ 1) (_hdomy : |y / ny| ≤ 1)
    (_hreal : 0 ≤ 1 - (1 + k) * (x ^ 2 + y ^ 2) / R ^ 2) :
    (EvenAsphere.mk R k c).sag x y = (StandardGeometry.mk R k).sag x y ∧
    (ChebyshevPolynomialGeometry.mk R k rows cols cc nx ny).sagVal x y
      = (StandardGeometry.mk R k).sag x y ∧
    (ChebyshevPolynomialGeometry.mk R k rows cols cc nx ny).surfaceNormal x y
      = (StandardGeometry.mk R k).surface_normal x y ∧
    (EvenAsphere.mk R k c).surfaceNormal x y
      = (-((StandardGeometry.mk R k).surface_normal x y).1,
         -((StandardGeometry.mk R k).surface_normal x y).2.1,
         -((StandardGeometry.mk R k).surface_normal x y).2.2) := by
  have hcomb := combine_zero (ChebyshevPolynomialGeometry.mk R k rows cols cc nx ny)
    hzero
  have hea0 := eaSagSum_zero (x ^ 2 + y ^ 2) c hc 0
  have head := eaDerivSum_zero x (x ^ 2 + y ^ 2) c hc 0
  have heady := eaDerivSum_zero y (x ^ 2 + y ^ 2) c hc 0
  -- the shared square-root factor
  set s : ℝ := Real.sqrt (1 - (1 + k) * (x ^ 2 + y ^ 2) / R ^ 2) with hs
  -- the standard dfdx/dfdy negate the even-asphere / Chebyshev ones
  have hdneg : ∀ X : ℝ, X / (-R * s) = -(X / (R * s)) := fun X => by
    rw [neg_mul, div_neg]
  have hmagstd : (StandardGeometry.mk R k).mag x y
      = Real.sqrt ((x / (R * s)) ^ 2 + (y / (R * s)) ^ 2 + 1) := by
    simp only [StandardGeometry.mag, StandardGeometry.denom, hdneg, neg_sq, hs]
  refine ⟨?_, ?_, ?_, ?_⟩
  · simp only [EvenAsphere.sag, StandardGeometry.sag, hea0, add_zero]
  · simp only [ChebyshevPolynomialGeometry.sagVal, StandardGeometry.sag,
      hcomb, add_zero]
  · have hmagc : (ChebyshevPolynomialGeometry.mk R k rows cols cc nx ny).mag x y
        = Real.sqrt ((x / (R * s)) ^ 2 + (y / (R * s)) ^ 2 + 1) := by
      simp only [ChebyshevPolynomialGeometry.mag,
        ChebyshevPolynomialGeometry.dzdx, ChebyshevPolynomialGeometry.dzdy,
        ChebyshevPolynomialGeometry.denom, hcomb, add_zero, hs]
    simp only [ChebyshevPolynomialGeometry.surfaceNormal,
      StandardGeometry.surface_normal, ChebyshevPolynomialGeometry.dzdx,
      ChebyshevPolynomialGeometry.dzdy, ChebyshevPolynomialGeometry.denom,
      StandardGeometry.denom, hcomb, add_zero, hmagc, hmagstd, hdneg, hs,
      neg_div, neg_neg]
  · have hmage : (EvenAsphere.mk R k c).mag x y
        = Real.sqrt ((x / (R * s)) ^ 2 + (y / (R * s)) ^ 2 + 1) := by
      simp only [EvenAsphere.mag, EvenAsphere.dfdx, EvenAsphere.dfdy,
        EvenAsphere.denom, head, heady, add_zero, hs]
    simp only [EvenAsphere.surfaceNormal, StandardGeometry.surface_normal,
      EvenAsphere.dfdx, EvenAsphere.dfdy, EvenAsphere.denom,
      StandardGeometry.denom, head, heady, add_zero, hmage, hmagstd, hdneg,
      hs, neg_div, neg_neg]

/-- C1 counterexample: already at the vertex `(0, 0)` of the unit sphere with
an empty coefficient list, `EvenAsphere._surface_normal` returns `(0, 0, -1)`
while `StandardGeometry.surface_normal` returns `(0, 0, 1)` — the claim that
the two agree on the surface normal is false. -/
theorem C1_counterexample :
    ((EvenAsphere.mk 1 0 []).surfaceNormal 0 0).2.2 = -1 ∧
    ((StandardGeometry.mk 1 0).surface_normal 0 0).2.2 = 1 ∧
    (EvenAsphere.mk 1 0 []).surfaceNormal 0 0
      ≠ (StandardGeometry.mk 1 0).surface_normal 0 0 := by
  have hea : ((EvenAsphere.mk 1 0 []).surfaceNormal 0 0).2.2 = -1 := by
    norm_num [EvenAsphere.surfaceNormal, EvenAsphere.mag, EvenAsphere.dfdx,
      EvenAsphere.dfdy, EvenAsphere.denom, eaDerivSum, Real.sqrt_one]
  have hstd : ((StandardGeometry.mk 1 0).surface_normal 0 0).2.2 = 1 := by
    norm_num [StandardGeometry.surface_normal, StandardGeometry.mag,
      StandardGeometry.denom, Real.sqrt_one]
  refine ⟨hea, hstd, fun heq => ?_⟩
  have h := congrArg (fun p : ℝ × ℝ × ℝ => p.2.2) heq
  simp only at h
  rw [hea, hstd] at h
  norm_num at h

/-- C1 witness: the amended reduction instantiated at the unit sphere, the
empty coefficient list, the `1 × 1` zero Chebyshev array and the vertex
`(0, 0)`. -/
theorem C1_witness :
    |(0 : ℝ) / 1| ≤ 1 ∧
    (0 : ℝ) ≤ 1 - (1 + 0) * ((0 : ℝ) ^ 2 + 0 ^ 2) / 1 ^ 2 ∧
    ((EvenAsphere.mk 1 0 []).sag 0 0 = (StandardGeometry.mk 1 0).sag 0 0 ∧
     (ChebyshevPolynomialGeometry.mk 1 0 1 1 (fun _ _ => 0) 1 1).sagVal 0 0
       = (StandardGeometry.mk 1 0).sag 0 0 ∧
     (ChebyshevPolynomialGeometry.mk 1 0 1 1 (fun _ _ => 0) 1 1).surfaceNormal 0 0
       = (StandardGeometry.mk 1 0).surface_normal 0 0 ∧
     (EvenAsphere.mk 1 0 []).surfaceNormal 0 0
       = (-((StandardGeometry.mk 1 0).surface_normal 0 0).1,
          -((StandardGeometry.mk 1 0).surface_normal 0 0).2.1,
          -((StandardGeometry.mk 1 0).surface_normal 0 0).2.2)) :=
  ⟨by norm_num, by norm_num,
    C1_theorem 1 0 [] 1 1 (fun _ _ => 0) 1 1 0 0
      (fun a ha => absurd ha (List.not_mem_nil a))
      (fun i j => rfl) (by norm_num) (by norm_num) (by norm_num)⟩

/- ============ Theorems: StandardGeometry.distance (C2, C3, C7) =========== -/

lemma tmask_fin {t : F} {v : ℝ} (h : tmask t = F.fin v) : 0 ≤ v := by
  unfold tmask at h
  split at h
  · exact F.noConfusion h
  · next hlt =>
      subst h
      simpa [F.lt, not_lt] using hlt

lemma distOne_eq_sel {g : StandardGeometry} {r : Ray} (ha : aOf g r ≠ 0) :
    distOne g r = selOf g r := by
  unfold distOne
  rw [if_neg ha]

lemma selOf_cases (g : StandardGeometry) (r : Ray) :
    selOf g r = tmask (t1Of g r) ∨ selOf g r = tmask (t2Of g r) := by
  unfold selOf
  split
  · exact Or.inl rfl
  · exact Or.inr rfl

lemma distOne_fin_nonneg {g : StandardGeometry} {r : Ray} {v : ℝ}
    (ha : aOf g r ≠ 0) (h : distOne g r = F.fin v) : 0 ≤ v := by
  rw [distOne_eq_sel ha] at h
  rcases selOf_cases g r with hc | hc <;> rw [hc] at h <;> exact tmask_fin h

/-- C2 (amended): for every ray of the batch handled by the quadratic branch
(`a ≠ 0`), any finite value in the array returned by
`StandardGeometry.distance` is non-negative, because both candidate roots are
masked to `+inf` when negative before the per-ray selection.  (The `a == 0`
linear branch writes `t = -c/b` after that mask and its result can be
negative; see the counterexample.) -/
theorem C2_theorem (g : StandardGeometry) (rays : List Ray) (i : ℕ) (r : Ray)
    (v : ℝ) (hr : rays.get? i = some r) (ha : aOf g r ≠ 0)
    (hv : (g.distance rays).get? i = some (F.fin v)) : 0 ≤ v := by
  rw [StandardGeometry.distance, List.get?_map, hr, Option.map_some'] at hv
  exact distOne_fin_nonneg ha (Option.some.inj hv)

/-- C2 counterexample: for the paraboloid `radius = 1, conic = -1` and the
ray at `(0, 0, 5)` with direction `(0, 0, 1)` we get `a = 0`, `b = -2`,
`c = -10`, and `distance` returns the finite negative value `t = -c/b = -5`:
the negative-root filter is not applied to the `a == 0` linear branch. -/
theorem C2_counterexample :
    (StandardGeometry.mk 1 (-1)).distance [Ray.mk 0 0 5 0 0 1]
      = [F.fin (-5)] ∧ (-5 : ℝ) < 0 := by
  constructor
  · have ha : aOf (StandardGeometry.mk 1 (-1)) (Ray.mk 0 0 5 0 0 1) = 0 := by
      norm_num [aOf]
    have hlin : linOf (StandardGeometry.mk 1 (-1)) (Ray.mk 0 0 5 0 0 1)
        = F.fin (-5) := by
      norm_num [linOf, bOf, cOf, F.div]
    simp [StandardGeometry.distance, distOne, ha, hlin]
  · norm_num

/-- C2 witness: for the unit sphere and the on-axis ray from the origin the
quadratic branch applies, and the returned entry is the finite value `0 ≥ 0`. -/
theorem C2_witness :
    aOf (StandardGeometry.mk 1 0) (Ray.mk 0 0 0 0 0 1) ≠ 0 ∧
    [Ray.mk (0 : ℝ) 0 0 0 0 1].get? 0 = some (Ray.mk 0 0 0 0 0 1) ∧
    ((StandardGeometry.mk 1 0).distance [Ray.mk 0 0 0 0 0 1]).get? 0
      = some (F.fin 0) ∧
    (0 : ℝ) ≤ 0 := by
  have ha : aOf (StandardGeometry.mk 1 0) (Ray.mk 0 0 0 0 0 1) ≠ 0 := by
    norm_num [aOf]
  have hr : [Ray.mk (0 : ℝ) 0 0 0 0 1].get? 0 = some (Ray.mk 0 0 0 0 0 1) := rfl
  have hsqrt : Real.sqrt 4 = 2 := by
    rw [show (4 : ℝ) = 2 ^ 2 by norm_num]
    exact Real.sqrt_sq (by norm_num)
  have ht1 : t1Of (StandardGeometry.mk 1 0) (Ray.mk 0 0 0 0 0 1) = F.fin 2 := by
    norm_num [t1Of, aOf, bOf, cOf, dOf, F.sqrtF, hsqrt, F.add, F.div]
  have ht2 : t2Of (StandardGeometry.mk 1 0) (Ray.mk 0 0 0 0 0 1) = F.fin 0 := by
    norm_num [t2Of, aOf, bOf, cOf, dOf, F.sqrtF, hsqrt, F.sub, F.neg, F.add,
      F.div]
  have hm1 : tmask (t1Of (StandardGeometry.mk 1 0) (Ray.mk 0 0 0 0 0 1))
      = F.fin 2 := by
    rw [ht1]
    norm_num [tmask, F.lt]
  have hm2 : tmask (t2Of (StandardGeometry.mk 1 0) (Ray.mk 0 0 0 0 0 1))
      = F.fin 0 := by
    rw [ht2]
    norm_num [tmask, F.lt]
  have hle : ¬ F.le
      (F.absF (zOf (Ray.mk 0 0 0 0 0 1)
        (tmask (t1Of (StandardGeometry.mk 1 0) (Ray.mk 0 0 0 0 0 1)))))
      (F.absF (zOf (Ray.mk 0 0 0 0 0 1)
        (tmask (t2Of (StandardGeometry.mk 1 0) (Ray.mk 0 0 0 0 0 1))))) := by
    rw [hm1, hm2]
    norm_num [zOf, F.mul, F.add, F.absF, F.le]
  have hdist : distOne (StandardGeometry.mk 1 0) (Ray.mk 0 0 0 0 0 1)
      = F.fin 0 := by
    simp only [distOne, selOf]
    rw [if_neg ha, if_neg hle, hm2]
  have hv : ((StandardGeometry.mk 1 0).distance [Ray.mk 0 0 0 0 0 1]).get? 0
      = some (F.fin 0) := by
    simp [StandardGeometry.distance, hdist]
  exact ⟨ha, hr, hv, C2_theorem _ _ 0 _ 0 hr ha hv⟩

lemma t1Of_eq_fin {g : StandardGeometry} {r : Ray} (ha : aOf g r ≠ 0)
    (hd : 0 ≤ dOf g r) : t1Of g r = F.fin (t1R g r) := by
  have h2a : (2 : ℝ) * aOf g r ≠ 0 := mul_ne_zero two_ne_zero ha
  simp [t1Of, t1R, F.sqrtF, hd, F.add, F.div, h2a]

lemma t2Of_eq_fin {g : StandardGeometry} {r : Ray} (ha : aOf g r ≠ 0)
    (hd : 0 ≤ dOf g r) : t2Of g r = F.fin (t2R g r) := by
  have h2a : (2 : ℝ) * aOf g r ≠ 0 := mul_ne_zero two_ne_zero ha
  simp [t2Of, t2R, F.sqrtF, hd, F.sub, F.neg, F.add, F.div, h2a,
    sub_eq_add_neg]

lemma zOf_tmask_ne_nan {r : Ray} {w : ℝ} (h : r.N ≠ 0 ∨ 0 ≤ w) :
    zOf r (tmask (F.fin w)) ≠ F.nan := by
  unfold tmask
  by_cases hw : F.lt (F.fin w) (F.fin 0)
  · rw [if_pos hw]
    have hN : r.N ≠ 0 := by
      rcases h with hN | hw0
      · exact hN
      · exact absurd (by simpa [F.lt] using hw) (not_lt.mpr hw0)
    unfold zOf
    rcases lt_or_gt_of_ne hN with hlt | hgt
    · simp [F.mul, asymm hlt, hlt, F.add]
    · simp [F.mul, hgt, F.add]
  · rw [if_neg hw]
    unfold zOf
    simp [F.mul, F.add]

lemma absF_ne_nan {t : F} (h : t ≠ F.nan) : F.absF t ≠ F.nan := by
  cases t with
  | fin a => simp [F.absF]
  | inf => simp [F.absF]
  | ninf => simp [F.absF]
  | nan => exact absurd rfl h

lemma F.le_total_of_ne_nan :
    ∀ {a b : F}, a ≠ F.nan → b ≠ F.nan → F.le a b ∨ F.le b a
  | .nan, _, ha, _ => absurd rfl ha
  | .fin _, .nan, _, hb => absurd rfl hb
  | .inf, .nan, _, hb => absurd rfl hb
  | .ninf, .nan, _, hb => absurd rfl hb
  | .fin v, .fin w, _, _ => le_total v w
  | .fin _, .inf, _, _ => Or.inl trivial
  | .fin _, .ninf, _, _ => Or.inr trivial
  | .inf, .fin _, _, _ => Or.inr trivial
  | .inf, .inf, _, _ => Or.inl trivial
  | .inf, .ninf, _, _ => Or.inr trivial
  | .ninf, .fin _, _, _ => Or.inl trivial
  | .ninf, .inf, _, _ => Or.inl trivial
  | .ninf, .ninf, _, _ => Or.inl trivial

/-- The property claimed of the root selection: the returned value is one of
the two masked roots, and its propagated intersection `z + t*N` has absolute
value less than or equal (in float comparison) to the other root's. -/
def c3Prop (g : StandardGeometry) (r : Ray) : Prop :=
  (distOne g r = tmask (t1Of g r) ∧
    F.le (F.absF (zOf r (tmask (t1Of g r))))
      (F.absF (zOf r (tmask (t2Of g r))))) ∨
  (distOne g r = tmask (t2Of g r) ∧
    F.le (F.absF (zOf r (tmask (t2Of g r))))
      (F.absF (zOf r (tmask (t1Of g r)))))

/-- C3 (amended): for a ray with `a ≠ 0` and discriminant `d ≥ 0`, and whose
candidate z-comparisons are well defined — that is, `N ≠ 0` or both roots are
non-negative, so that no `inf * 0 = NaN` arises in `z + t*N` — `distance`
returns whichever masked root yields the smaller `|z + t*N|`.  (When `N = 0`
and exactly one root is negative the comparison involves NaN and the code
returns the `t2` side unconditionally; see the counterexample.) -/
theorem C3_theorem (g : StandardGeometry) (r : Ray) (ha : aOf g r ≠ 0)
    (hd : 0 ≤ dOf g r)
    (hN : r.N ≠ 0 ∨ (0 ≤ t1R g r ∧ 0 ≤ t2R g r)) : c3Prop g r := by
  have h1 := t1Of_eq_fin ha hd
  have h2 := t2Of_eq_fin ha hd
  have hz1 : zOf r (tmask (t1Of g r)) ≠ F.nan := by
    rw [h1]
    exact zOf_tmask_ne_nan (hN.imp id And.left)
  have hz2 : zOf r (tmask (t2Of g r)) ≠ F.nan := by
    rw [h2]
    exact zOf_tmask_ne_nan (hN.imp id And.right)
  have ht := F.le_total_of_ne_nan (absF_ne_nan hz1) (absF_ne_nan hz2)
  unfold c3Prop
  rw [distOne_eq_sel ha]
  unfold selOf
  split
  · next hle => exact Or.inl ⟨rfl, hle⟩
  · next hnle =>
      rcases ht with hle | hle
      · exact absurd hle hnle
      · exact Or.inr ⟨rfl, hle⟩

/-- C3 counterexample: for `radius = 5, conic = 0` and the ray at `(1, 0, 1)`
with direction `(1, 0, 0)` we get `a = 1 ≠ 0` and `d = 36 ≥ 0`, roots
`t1 = 2` and `t2 = -4 → inf`; since `N = 0`, `z2 = 1 + inf*0 = NaN`, the
comparison `|z1| <= |z2|` is false, and `distance` returns `inf` even though
the masked root `t1 = 2` yields the well-defined smaller `|z + t*N| = 1`:
the claimed selection property fails. -/
theorem C3_counterexample :
    aOf (StandardGeometry.mk 5 0) (Ray.mk 1 0 1 1 0 0) ≠ 0 ∧
    0 ≤ dOf (StandardGeometry.mk 5 0) (Ray.mk 1 0 1 1 0 0) ∧
    distOne (StandardGeometry.mk 5 0) (Ray.mk 1 0 1 1 0 0) = F.inf ∧
    ¬ c3Prop (StandardGeometry.mk 5 0) (Ray.mk 1 0 1 1 0 0) := by
  have ha : aOf (StandardGeometry.mk 5 0) (Ray.mk 1 0 1 1 0 0) ≠ 0 := by
    norm_num [aOf]
  have hsqrt : Real.sqrt 36 = 6 := by
    rw [show (36 : ℝ) = 6 ^ 2 by norm_num]
    exact Real.sqrt_sq (by norm_num)
  have ht1 : t1Of (StandardGeometry.mk 5 0) (Ray.mk 1 0 1 1 0 0) = F.fin 2 := by
    norm_num [t1Of, aOf, bOf, cOf, dOf, F.sqrtF, hsqrt, F.add, F.div]
  have ht2 : t2Of (StandardGeometry.mk 5 0) (Ray.mk 1 0 1 1 0 0)
      = F.fin (-4) := by
    norm_num [t2Of, aOf, bOf, cOf, dOf, F.sqrtF, hsqrt, F.sub, F.neg, F.add,
      F.div]
  have hm1 : tmask (t1Of (StandardGeometry.mk 5 0) (Ray.mk 1 0 1 1 0 0))
      = F.fin 2 := by
    rw [ht1]
    norm_num [tmask, F.lt]
  have hm2 : tmask (t2Of (StandardGeometry.mk 5 0) (Ray.mk 1 0 1 1 0 0))
      = F.inf := by
    rw [ht2]
    norm_num [tmask, F.lt]
  have hz1 : zOf (Ray.mk (1 : ℝ) 0 1 1 0 0) (F.fin 2) = F.fin 1 := by
    norm_num [zOf, F.mul, F.add]
  have hz2 : zOf (Ray.mk (1 : ℝ) 0 1 1 0 0) F.inf = F.nan := by
    norm_num [zOf, F.mul, F.add]
  have hle : ¬ F.le
      (F.absF (zOf (Ray.mk 1 0 1 1 0 0)
        (tmask (t1Of (StandardGeometry.mk 5 0) (Ray.mk 1 0 1 1 0 0)))))
      (F.absF (zOf (Ray.mk 1 0 1 1 0 0)
        (tmask (t2Of (StandardGeometry.mk 5 0) (Ray.mk 1 0 1 1 0 0))))) := by
    rw [hm1, hm2, hz1, hz2]
    simp [F.absF, F.le]
  have hdist : distOne (StandardGeometry.mk 5 0) (Ray.mk 1 0 1 1 0 0)
      = F.inf := by
    simp only [distOne, selOf]
    rw [if_neg ha, if_neg hle, hm2]
  refine ⟨ha, by norm_num [dOf, aOf, bOf, cOf], hdist, ?_⟩
  unfold c3Prop
  rw [hdist, hm1, hm2, hz1, hz2]
  simp [F.absF, F.le]

/-- C3 witness: the unit sphere and the on-axis ray from the origin satisfy
all three hypotheses (`a = 1`, `d = 4`, `N = 1 ≠ 0`) and the selection
property holds. -/
theorem C3_witness :
    aOf (StandardGeometry.mk 1 0) (Ray.mk 0 0 0 0 0 1) ≠ 0 ∧
    0 ≤ dOf (StandardGeometry.mk 1 0) (Ray.mk 0 0 0 0 0 1) ∧
    (Ray.mk (0 : ℝ) 0 0 0 0 1).N ≠ 0 ∧
    c3Prop (StandardGeometry.mk 1 0) (Ray.mk 0 0 0 0 0 1) := by
  have ha : aOf (StandardGeometry.mk 1 0) (Ray.mk 0 0 0 0 0 1) ≠ 0 := by
    norm_num [aOf]
  have hd : 0 ≤ dOf (StandardGeometry.mk 1 0) (Ray.mk 0 0 0 0 0 1) := by
    norm_num [dOf, aOf, bOf, cOf]
  have hN : (Ray.mk (0 : ℝ) 0 0 0 0 1).N ≠ 0 := by norm_num
  exact ⟨ha, hd, hN, C3_theorem _ _ ha hd (Or.inl hN)⟩

lemma distOne_nan_of_dneg {g : StandardGeometry} {r : Ray}
    (hd : dOf g r < 0) : distOne g r = F.nan := by
  have ha : aOf g r ≠ 0 := by
    intro h0
    rw [dOf, h0] at hd
    nlinarith [sq_nonneg (bOf g r)]
  have ht1 : t1Of g r = F.nan := by
    simp [t1Of, F.sqrtF, not_le.mpr hd, F.add, F.div]
  have ht2 : t2Of g r = F.nan := by
    simp [t2Of, F.sqrtF, not_le.mpr hd, F.sub, F.neg, F.add, F.div]
  have hm1 : tmask (t1Of g r) = F.nan := by
    rw [ht1]
    simp [tmask, F.lt]
  have hm2 : tmask (t2Of g r) = F.nan := by
    rw [ht2]
    simp [tmask, F.lt]
  have hz : zOf r F.nan = F.nan := by
    simp [zOf, F.mul, F.add]
  have hle : ¬ F.le (F.absF (zOf r (tmask (t1Of g r))))
      (F.absF (zOf r (tmask (t2Of g r)))) := by
    rw [hm1, hm2, hz]
    simp [F.absF, F.le]
  simp only [distOne, selOf]
  rw [if_neg ha, if_neg hle, hm2]

/-- C7: `distance` never raises: it returns a full-length result array, the
entry of each ray depends only on that ray (elementwise evaluation, so rays
with negative discriminant do not disturb the others), and every ray whose
discriminant is negative receives the NaN sentinel. -/
theorem C7_theorem (g : StandardGeometry) (rays : List Ray) :
    (g.distance rays).length = rays.length ∧
    (∀ i r, rays.get? i = some r →
      (g.distance rays).get? i = some (distOne g r)) ∧
    (∀ r, dOf g r < 0 → distOne g r = F.nan) := by
  refine ⟨by simp [StandardGeometry.distance], ?_,
    fun r hd => distOne_nan_of_dneg hd⟩
  intro i r hr
  rw [StandardGeometry.distance, List.get?_map, hr, Option.map_some']

/-- C7 witness: the off-axis ray at `x = 10` misses the unit sphere
(`d = -396 < 0`) and its entry is the NaN sentinel. -/
theorem C7_witness :
    dOf (StandardGeometry.mk 1 0) (Ray.mk 10 0 0 0 0 1) < 0 ∧
    distOne (StandardGeometry.mk 1 0) (Ray.mk 10 0 0 0 0 1) = F.nan := by
  have hd : dOf (StandardGeometry.mk 1 0) (Ray.mk 10 0 0 0 0 1) < 0 := by
    norm_num [dOf, aOf, bOf, cOf]
  exact ⟨hd,
    (C7_theorem (StandardGeometry.mk 1 0) [Ray.mk 10 0 0 0 0 1]).2.2 _ hd⟩
